import Mathlib

/-!
Shallow embedding of the `rust-coding-test` payments engine core:
the fixed-point monetary type `Amount` (src/amount.rs) and the
`Client`/`Ledger` transition logic (src/ledger.rs).

Rust `i64` values are modelled as `Int` (the source documents a working
range of ±2^49, far from the overflow boundary, and no claim exercises
wrap-around); `u16`/`u64` identifiers are modelled as `Nat`.  Rust's
truncating division `/` and remainder `%` on `i64` are `Int.tdiv` and
`Int.tmod`.  `HashMap` is modelled as an association list whose `insert`
replaces the value at an existing key, matching `HashMap::insert`.
-/

/-- Fixed point numeric type with 4 fraction digits, from `src/amount.rs`:
`struct Amount { amount_fx4: i64 }`. -/
structure Amount where
  amount_fx4 : Int
deriving DecidableEq, Repr

/-- Constructor `Amount::new(whole, fraction)` from src/amount.rs lines 24-32. -/
def Amount.new (whole : Int) (fraction : Nat) : Amount :=
  if 0 ≤ whole then { amount_fx4 := whole * 10000 + (fraction : Int) }
  else { amount_fx4 := whole * 10000 - (fraction : Int) }

instance : Add Amount := ⟨fun a b => { amount_fx4 := a.amount_fx4 + b.amount_fx4 }⟩

instance : Sub Amount := ⟨fun a b => { amount_fx4 := a.amount_fx4 - b.amount_fx4 }⟩

instance : Mul Amount := ⟨fun a b => { amount_fx4 := (a.amount_fx4 * b.amount_fx4).tdiv 10000 }⟩

instance : LT Amount := ⟨fun a b => a.amount_fx4 < b.amount_fx4⟩

instance (a b : Amount) : Decidable (a < b) :=
  inferInstanceAs (Decidable (a.amount_fx4 < b.amount_fx4))

/-- The `ZERO` constant of src/amount.rs. -/
def ZERO : Amount := Amount.new 0 0

/-- The `amount::Error` enum of src/amount.rs. -/
inductive Amount.Error where
  | NoInput
  | Malformed (s : String)
  | PrecisionTooHigh (s : String)
deriving DecidableEq, Repr

/-! Decimal digit strings, used to model Rust's integer `parse` and the
`Display`/`write!` decimal rendering extensionally. -/

/-- Numeric value of a decimal digit character, `none` on a non-digit. -/
def digitVal (c : Char) : Option Nat :=
  if 48 ≤ c.toNat ∧ c.toNat ≤ 57 then some (c.toNat - 48) else none

/-- Accumulating decimal evaluation of a character list; fails on any
non-digit character. -/
def parseDigitsAux (acc : Nat) : List Char → Option Nat
  | [] => some acc
  | c :: cs =>
    match digitVal c with
    | some d => parseDigitsAux (acc * 10 + d) cs
    | none => none

/-- Value of a non-empty all-digit character list. -/
def parseNatDigits : List Char → Option Nat
  | [] => none
  | cs => parseDigitsAux 0 cs

def U32MAX : Nat := 4294967295

def I64MAXn : Nat := 9223372036854775807

/-- Rust `u32::from_str`: optional leading `+`, then decimal digits, value
must fit in 32 bits. -/
def parseU32 (cs : List Char) : Option Nat :=
  let body := match cs with
    | '+' :: rest => rest
    | _ => cs
  match parseNatDigits body with
  | some v => if v ≤ U32MAX then some v else none
  | none => none

/-- Rust `i64::from_str`: optional sign, then decimal digits, value must
fit in 64 bits. -/
def parseI64 (cs : List Char) : Option Int :=
  match cs with
  | '-' :: rest =>
    match parseNatDigits rest with
    | some v => if v ≤ I64MAXn + 1 then some (-(v : Int)) else none
    | none => none
  | '+' :: rest =>
    match parseNatDigits rest with
    | some v => if v ≤ I64MAXn then some ((v : Int)) else none
    | none => none
  | cs0 =>
    match parseNatDigits cs0 with
    | some v => if v ≤ I64MAXn then some ((v : Int)) else none
    | none => none

/-- Rust `str::split('.')` on the character list of the input. -/
def splitDot : List Char → List (List Char)
  | [] => [[]]
  | c :: cs =>
    if c = '.' then [] :: splitDot cs
    else
      match splitDot cs with
      | [] => [[c]]
      | p :: ps => (c :: p) :: ps

/-- The `FromStr` impl for `Amount`, src/amount.rs lines 74-91: split on
`.`, parse the whole part as `i64`, the fraction part (when present) as
`u32`, then classify by the fraction's character length. -/
def Amount.from_str (s : String) : Except Amount.Error Amount :=
  match splitDot s.data with
  | [] => .error .NoInput
  | w :: rest =>
    match parseI64 w with
    | none => .error (.Malformed s)
    | some whole =>
      match rest with
      | [] => .ok (Amount.new whole 0)
      | f :: _ =>
        match parseU32 f with
        | none => .error (.Malformed s)
        | some parsed_fraction =>
          let fraction_len := f.length
          if fraction_len = 0 then .error (.Malformed s)
          else if fraction_len ≤ 4 then
            .ok (Amount.new whole (parsed_fraction * 10 ^ (4 - fraction_len)))
          else .error (.PrecisionTooHigh s)

/-- Character of a decimal digit. -/
def digitChar (d : Nat) : Char := Char.ofNat (48 + d)

/-- Fueled most-significant-first decimal digits of a natural number; the
fuel only needs to exceed the number of digits. -/
def natDigitsAux : Nat → Nat → List Char
  | 0, _ => []
  | fuel + 1, n =>
    if n < 10 then [digitChar n]
    else natDigitsAux fuel (n / 10) ++ [digitChar (n % 10)]

/-- Decimal digits of a natural number (`n + 1` fuel always suffices). -/
def natDigits (n : Nat) : List Char := natDigitsAux (n + 1) n

/-- Characters of Rust's `write!("{}", i)` for an `i64`. -/
def intChars (i : Int) : List Char :=
  if i < 0 then '-' :: natDigits i.natAbs else natDigits i.natAbs

/-- The trailing-zero stripping loop of the `Display` impl,
src/amount.rs lines 102-107, with fuel (the loop runs at most 4 times
since the fraction is below 10000 and nonzero). -/
def stripZerosAux : Nat → Nat → Nat → Nat × Nat
  | 0, fraction, width => (fraction, width)
  | fuel + 1, fraction, width =>
    if fraction % 10 = 0 then stripZerosAux fuel (fraction / 10) (width - 1)
    else (fraction, width)

/-- Characters of Rust's `write!("{:0width$}", n)`: left-pad the decimal
digits with zeros up to `width`. -/
def padChars (width : Nat) (n : Nat) : List Char :=
  List.replicate (width - (natDigits n).length) '0' ++ natDigits n

/-- The `Display` impl for `Amount`, src/amount.rs lines 94-111, as a
character list: truncating whole part, absolute remainder as fraction,
trailing fractional zeros stripped. -/
def Amount.formatChars (a : Amount) : List Char :=
  let whole := a.amount_fx4.tdiv 10000
  let fraction := (a.amount_fx4.tmod 10000).natAbs
  if fraction = 0 then intChars whole
  else
    let fw := stripZerosAux 5 fraction 4
    intChars whole ++ '.' :: padChars fw.2 fw.1

/-- `Amount`'s `to_string` via its `Display` impl. -/
def Amount.format (a : Amount) : String := String.mk (Amount.formatChars a)

deriving instance DecidableEq for Except

/-! The ledger, from `src/ledger.rs`. -/

/-- The `TransactionKind` enum of src/ledger.rs. -/
inductive TransactionKind where
  | Deposit
  | Withdrawal
  | Dispute
  | Resolve
  | Chargeback
deriving DecidableEq, Repr

/-- The `Transaction` struct of src/ledger.rs lines 42-48. -/
structure Transaction where
  id : Nat
  client_id : Nat
  kind : TransactionKind
  amount : Amount
deriving DecidableEq, Repr

/-- The `TransactionError` enum of src/ledger.rs lines 56-62. -/
inductive TransactionError where
  | NegativeBalance
  | NegativeTransaction
  | ClientLocked
  | ReferencedTransactionNonexistent
deriving DecidableEq, Repr

/-- The `Client` struct of src/ledger.rs lines 64-70. -/
structure Client where
  id : Nat
  available : Amount
  held : Amount
  locked : Bool
deriving DecidableEq, Repr

/-- `Client::new`: default state, zero balances and unlocked. -/
def Client.new (id : Nat) : Client :=
  { id := id, available := { amount_fx4 := 0 }, held := { amount_fx4 := 0 }, locked := false }

/-- `Client::total`: `available + held`, derived. -/
def Client.total (s : Client) : Amount := s.available + s.held

/-- `Client::deposit`, src/ledger.rs lines 86-91. -/
def Client.deposit (s : Client) (amount : Amount) : Except TransactionError Client :=
  .ok { s with available := s.available + amount }

/-- `Client::withdrawal`, src/ledger.rs lines 93-99: fails with
`NegativeBalance` when `amount > available`. -/
def Client.withdrawal (s : Client) (amount : Amount) : Except TransactionError Client :=
  if s.available < amount then .error .NegativeBalance
  else .ok { s with available := s.available - amount }

/-- `Client::dispute`, src/ledger.rs lines 101-108 (no guard: `available`
can go negative, per the FIXME in the source). -/
def Client.dispute (s : Client) (amount : Amount) : Except TransactionError Client :=
  .ok { s with available := s.available - amount, held := s.held + amount }

/-- `Client::resolve`, src/ledger.rs lines 110-117 (no guard: `held` can
go negative, per the FIXME in the source). -/
def Client.resolve (s : Client) (amount : Amount) : Except TransactionError Client :=
  .ok { s with available := s.available + amount, held := s.held - amount }

/-- `Client::chargeback`, src/ledger.rs lines 119-126 (no guard: `held`
can go negative, per the FIXME in the source). -/
def Client.chargeback (s : Client) (amount : Amount) : Except TransactionError Client :=
  .ok { s with held := s.held - amount, locked := true }

/-- Association-list lookup, modelling `HashMap::get`. -/
def lookupA {β : Type} (k : Nat) : List (Nat × β) → Option β
  | [] => none
  | (k2, v) :: rest => if k2 = k then some v else lookupA k rest

/-- Association-list insert, modelling `HashMap::insert`: replaces the
value when the key is present. -/
def insertA {β : Type} (k : Nat) (v : β) : List (Nat × β) → List (Nat × β)
  | [] => [(k, v)]
  | (k2, v2) :: rest => if k2 = k then (k, v) :: rest else (k2, v2) :: insertA k v rest

/-- The `Ledger` struct of src/ledger.rs lines 129-133: the account map
and the referenceable-transaction history. -/
structure Ledger where
  clients : List (Nat × Client)
  transactions : List (Nat × Transaction)
deriving DecidableEq, Repr

/-- `Ledger::new`: both maps empty. -/
def Ledger.new : Ledger := { clients := [], transactions := [] }

/-- The client fetched (or lazily created) by `Ledger::mutate`,
src/ledger.rs lines 152-155. -/
def Ledger.old_client (l : Ledger) (cid : Nat) : Client :=
  match lookupA cid l.clients with
  | none => Client.new cid
  | some x => x

/-- The `match transaction.kind` dispatch of `Ledger::mutate`,
src/ledger.rs lines 160-192: deposits and withdrawals record themselves
in the referenceable history only on success; dispute/resolve/chargeback
look the referenced id up in the history and use its recorded amount. -/
def Ledger.step (l : Ledger) (old_client : Client) (t : Transaction) :
    Ledger × Except TransactionError Client :=
  match t.kind with
  | .Deposit =>
    match old_client.deposit t.amount with
    | .ok c => ({ l with transactions := insertA t.id t l.transactions }, .ok c)
    | .error e => (l, .error e)
  | .Withdrawal =>
    match old_client.withdrawal t.amount with
    | .ok c => ({ l with transactions := insertA t.id t l.transactions }, .ok c)
    | .error e => (l, .error e)
  | .Dispute =>
    match lookupA t.id l.transactions with
    | some p => (l, old_client.dispute p.amount)
    | none => (l, .error .ReferencedTransactionNonexistent)
  | .Resolve =>
    match lookupA t.id l.transactions with
    | some p => (l, old_client.resolve p.amount)
    | none => (l, .error .ReferencedTransactionNonexistent)
  | .Chargeback =>
    match lookupA t.id l.transactions with
    | some p => (l, old_client.chargeback p.amount)
    | none => (l, .error .ReferencedTransactionNonexistent)

/-- `Ledger::mutate`, src/ledger.rs lines 148-196.  The Rust method
mutates `self` and returns a `Result`; here it returns the new ledger
paired with the result.  The negative-amount guard comes first, then the
locked guard on the (possibly lazily created) client, then the kind
dispatch (`Ledger.step`); the client map is written only after a
successful transition (the trailing `?`). -/
def Ledger.mutate (l : Ledger) (t : Transaction) : Ledger × Except TransactionError Client :=
  if t.amount < ZERO then (l, .error .NegativeTransaction)
  else
    let old_client := l.old_client t.client_id
    if old_client.locked then (l, .error .ClientLocked)
    else
      match Ledger.step l old_client t with
      | (l2, .ok c) => ({ l2 with clients := insertA t.client_id c l2.clients }, .ok c)
      | (l2, .error e) => (l2, .error e)

/-- Apply a list of transactions in order, keeping the ledger state and
discarding per-row results (the caller's skip-and-continue policy). -/
def Ledger.applyAll (l : Ledger) (ts : List Transaction) : Ledger :=
  ts.foldl (fun acc t => (Ledger.mutate acc t).1) l

/-! Sanity checks mirroring the unit tests of src/amount.rs and
src/ledger.rs. -/

example : Amount.from_str "12.5" = .ok { amount_fx4 := 125000 } := by decide
example : Amount.from_str "-12.5" = .ok { amount_fx4 := -125000 } := by decide
example : Amount.from_str "-0.5" = .ok { amount_fx4 := 5000 } := by decide
example : Amount.format { amount_fx4 := 125000 } = "12.5" := by decide
example : Amount.format { amount_fx4 := -244321 } = "-24.4321" := by decide
example : Amount.format { amount_fx4 := -5000 } = "0.5" := by decide
example : Amount.from_str "9.05" = .ok { amount_fx4 := 90500 } := by decide
example : Amount.format { amount_fx4 := 90500 } = "9.05" := by decide
example : Amount.from_str "1.9999999999" = .error (.Malformed "1.9999999999") := by decide
example : Amount.from_str "1.99999" = .error (.PrecisionTooHigh "1.99999") := by decide

example :
    lookupA 0 (Ledger.applyAll Ledger.new
      [ { id := 0, client_id := 0, kind := .Deposit, amount := { amount_fx4 := 125000 } },
        { id := 1, client_id := 0, kind := .Withdrawal, amount := { amount_fx4 := 75000 } },
        { id := 2, client_id := 0, kind := .Deposit, amount := { amount_fx4 := 50000 } },
        { id := 3, client_id := 0, kind := .Deposit, amount := { amount_fx4 := -50000 } } ]).clients =
      some { id := 0, available := { amount_fx4 := 100000 },
             held := { amount_fx4 := 0 }, locked := false } := by
  decide

example :
    lookupA 0 (Ledger.applyAll Ledger.new
      [ { id := 0, client_id := 0, kind := .Withdrawal, amount := { amount_fx4 := 125000 } } ]).clients =
      none := by
  decide

/-! Basic unfolding lemmas for the `Amount` operations. -/

theorem Amount.add_def (a b : Amount) : a + b = { amount_fx4 := a.amount_fx4 + b.amount_fx4 } := rfl

theorem Amount.sub_def (a b : Amount) : a - b = { amount_fx4 := a.amount_fx4 - b.amount_fx4 } := rfl

theorem Amount.lt_def (a b : Amount) : a < b ↔ a.amount_fx4 < b.amount_fx4 := Iff.rfl

theorem ZERO_def : ZERO = { amount_fx4 := 0 } := rfl

/-! Equation lemmas for `Ledger.mutate` and `Ledger.step`. -/

theorem Ledger.mutate_eq_neg (l : Ledger) (t : Transaction) (h : t.amount < ZERO) :
    Ledger.mutate l t = (l, .error .NegativeTransaction) := by
  unfold Ledger.mutate
  rw [if_pos h]

theorem Ledger.mutate_eq_locked (l : Ledger) (t : Transaction) (h1 : ¬ t.amount < ZERO)
    (h2 : (l.old_client t.client_id).locked = true) :
    Ledger.mutate l t = (l, .error .ClientLocked) := by
  unfold Ledger.mutate
  rw [if_neg h1]
  dsimp only
  rw [if_pos h2]

theorem Ledger.mutate_eq_ok (l l2 : Ledger) (t : Transaction) (c : Client)
    (h1 : ¬ t.amount < ZERO) (h2 : (l.old_client t.client_id).locked = false)
    (h3 : Ledger.step l (l.old_client t.client_id) t = (l2, .ok c)) :
    Ledger.mutate l t = ({ l2 with clients := insertA t.client_id c l2.clients }, .ok c) := by
  unfold Ledger.mutate
  rw [if_neg h1]
  dsimp only
  rw [if_neg (by simp [h2]), h3]

theorem Ledger.mutate_eq_err (l l2 : Ledger) (t : Transaction) (e : TransactionError)
    (h1 : ¬ t.amount < ZERO) (h2 : (l.old_client t.client_id).locked = false)
    (h3 : Ledger.step l (l.old_client t.client_id) t = (l2, .error e)) :
    Ledger.mutate l t = (l2, .error e) := by
  unfold Ledger.mutate
  rw [if_neg h1]
  dsimp only
  rw [if_neg (by simp [h2]), h3]

theorem Ledger.step_error_fst (l : Ledger) (oc : Client) (t : Transaction) (e : TransactionError)
    (h : (Ledger.step l oc t).2 = .error e) : (Ledger.step l oc t).1 = l := by
  revert h
  unfold Ledger.step
  cases t.kind <;>
    dsimp only [Client.deposit, Client.withdrawal, Client.dispute, Client.resolve,
      Client.chargeback] <;>
    (repeat first | split | dsimp only) <;> intro h <;> first | rfl | simp_all

theorem Ledger.step_deposit (l : Ledger) (oc : Client) (t : Transaction)
    (hk : t.kind = .Deposit) :
    Ledger.step l oc t =
      ({ l with transactions := insertA t.id t l.transactions },
        .ok { oc with available := oc.available + t.amount }) := by
  unfold Ledger.step
  rw [hk]
  rfl

theorem Ledger.step_withdrawal_ok (l : Ledger) (oc : Client) (t : Transaction)
    (hk : t.kind = .Withdrawal) (h : ¬ oc.available < t.amount) :
    Ledger.step l oc t =
      ({ l with transactions := insertA t.id t l.transactions },
        .ok { oc with available := oc.available - t.amount }) := by
  unfold Ledger.step
  rw [hk]
  dsimp only [Client.withdrawal]
  rw [if_neg h]

theorem Ledger.step_withdrawal_err (l : Ledger) (oc : Client) (t : Transaction)
    (hk : t.kind = .Withdrawal) (h : oc.available < t.amount) :
    Ledger.step l oc t = (l, .error .NegativeBalance) := by
  unfold Ledger.step
  rw [hk]
  dsimp only [Client.withdrawal]
  rw [if_pos h]

theorem Ledger.step_dispute (l : Ledger) (oc : Client) (t : Transaction) (p : Transaction)
    (hk : t.kind = .Dispute) (hp : lookupA t.id l.transactions = some p) :
    Ledger.step l oc t =
      (l, .ok { oc with available := oc.available - p.amount, held := oc.held + p.amount }) := by
  unfold Ledger.step
  rw [hk]
  dsimp only
  rw [hp]
  rfl

theorem Ledger.step_resolve (l : Ledger) (oc : Client) (t : Transaction) (p : Transaction)
    (hk : t.kind = .Resolve) (hp : lookupA t.id l.transactions = some p) :
    Ledger.step l oc t =
      (l, .ok { oc with available := oc.available + p.amount, held := oc.held - p.amount }) := by
  unfold Ledger.step
  rw [hk]
  dsimp only
  rw [hp]
  rfl

theorem Ledger.step_chargeback (l : Ledger) (oc : Client) (t : Transaction) (p : Transaction)
    (hk : t.kind = .Chargeback) (hp : lookupA t.id l.transactions = some p) :
    Ledger.step l oc t = (l, .ok { oc with held := oc.held - p.amount, locked := true }) := by
  unfold Ledger.step
  rw [hk]
  dsimp only
  rw [hp]
  rfl

/-- Helper: the error paths of `Ledger.mutate` leave the ledger untouched
(this is the content of the `?`-propagation in the Rust source: the
history insert happens inside the success `map`, and the client-map
insert happens after the `?`). -/
theorem Ledger.mutate_error_unchanged (l : Ledger) (t : Transaction) (e : TransactionError)
    (h : (Ledger.mutate l t).2 = .error e) : (Ledger.mutate l t).1 = l := by
  by_cases h1 : t.amount < ZERO
  · rw [Ledger.mutate_eq_neg l t h1]
  · cases h2 : (l.old_client t.client_id).locked with
    | true => rw [Ledger.mutate_eq_locked l t h1 h2]
    | false =>
      rcases h3 : Ledger.step l (l.old_client t.client_id) t with ⟨l2, r⟩
      cases r with
      | ok c => rw [Ledger.mutate_eq_ok l l2 t c h1 h2 h3] at h; simp at h
      | error e2 =>
        rw [Ledger.mutate_eq_err l l2 t e2 h1 h2 h3]
        have := Ledger.step_error_fst l (l.old_client t.client_id) t e2 (by rw [h3])
        rw [h3] at this
        exact this

theorem lookupA_insertA_self {β : Type} (k : Nat) (v : β) (m : List (Nat × β)) :
    lookupA k (insertA k v m) = some v := by
  induction m with
  | nil => simp [insertA, lookupA]
  | cons hd tl ih =>
    rcases hd with ⟨k2, v2⟩
    unfold insertA
    by_cases hk : k2 = k
    · rw [if_pos hk]
      simp [lookupA]
    · rw [if_neg hk]
      unfold lookupA
      rw [if_neg hk]
      exact ih

theorem lookupA_insertA_ne {β : Type} (k k2 : Nat) (v : β) (m : List (Nat × β))
    (h : k ≠ k2) : lookupA k2 (insertA k v m) = lookupA k2 m := by
  induction m with
  | nil => simp [insertA, lookupA, h]
  | cons hd tl ih =>
    rcases hd with ⟨k3, v3⟩
    unfold insertA
    by_cases hk : k3 = k
    · rw [if_pos hk]
      unfold lookupA
      rw [if_neg h, if_neg (hk ▸ h)]
    · rw [if_neg hk]
      unfold lookupA
      by_cases hk2 : k3 = k2
      · rw [if_pos hk2, if_pos hk2]
      · rw [if_neg hk2, if_neg hk2]
        exact ih

theorem Ledger.old_client_eq (l : Ledger) (cid : Nat) (cl : Client)
    (h : lookupA cid l.clients = some cl) : l.old_client cid = cl := by
  unfold Ledger.old_client
  rw [h]

/-- `Ledger.step` never touches the client map (only `mutate`'s final
insert does). -/
theorem Ledger.step_fst_clients (l : Ledger) (oc : Client) (t : Transaction) :
    (Ledger.step l oc t).1.clients = l.clients := by
  unfold Ledger.step
  cases t.kind <;> dsimp only <;> (repeat first | split | dsimp only)

/-- A `mutate` naming a different client never changes this client's
stored entry. -/
theorem Ledger.mutate_clients_other (l : Ledger) (t : Transaction) (cid : Nat)
    (h : t.client_id ≠ cid) :
    lookupA cid (Ledger.mutate l t).1.clients = lookupA cid l.clients := by
  by_cases h1 : t.amount < ZERO
  · rw [Ledger.mutate_eq_neg l t h1]
  · cases h2 : (l.old_client t.client_id).locked with
    | true => rw [Ledger.mutate_eq_locked l t h1 h2]
    | false =>
      rcases h3 : Ledger.step l (l.old_client t.client_id) t with ⟨l2, r⟩
      cases r with
      | ok c =>
        rw [Ledger.mutate_eq_ok l l2 t c h1 h2 h3]
        show lookupA cid (insertA t.client_id c l2.clients) = _
        rw [lookupA_insertA_ne _ _ _ _ h]
        have := Ledger.step_fst_clients l (l.old_client t.client_id) t
        rw [h3] at this
        rw [this]
      | error e =>
        rw [Ledger.mutate_eq_err l l2 t e h1 h2 h3]
        have := Ledger.step_fst_clients l (l.old_client t.client_id) t
        rw [h3] at this
        show lookupA cid l2.clients = _
        rw [this]

/-- A locked account rejects any row with a non-negative amount with
`ClientLocked`. -/
theorem Ledger.mutate_on_locked (l : Ledger) (t : Transaction) (cl : Client)
    (hcl : lookupA t.client_id l.clients = some cl) (hlk : cl.locked = true)
    (ha : ¬ t.amount < ZERO) :
    Ledger.mutate l t = (l, .error .ClientLocked) :=
  Ledger.mutate_eq_locked l t ha (by rw [Ledger.old_client_eq l t.client_id cl hcl]; exact hlk)

/-- A locked account's stored entry survives any single `mutate`
unchanged. -/
theorem Ledger.mutate_locked_persist (l : Ledger) (t : Transaction) (cid : Nat) (cl : Client)
    (hcl : lookupA cid l.clients = some cl) (hlk : cl.locked = true) :
    lookupA cid (Ledger.mutate l t).1.clients = some cl := by
  by_cases hc : t.client_id = cid
  · subst hc
    by_cases h1 : t.amount < ZERO
    · rw [Ledger.mutate_eq_neg l t h1]
      exact hcl
    · rw [Ledger.mutate_on_locked l t cl hcl hlk h1]
      exact hcl
  · rw [Ledger.mutate_clients_other l t cid hc]
    exact hcl

/-- A locked account's stored entry survives any transaction sequence
unchanged. -/
theorem Ledger.applyAll_locked_persist (ts : List Transaction) (l : Ledger) (cid : Nat)
    (cl : Client) (hcl : lookupA cid l.clients = some cl) (hlk : cl.locked = true) :
    lookupA cid (Ledger.applyAll l ts).clients = some cl := by
  induction ts generalizing l with
  | nil => exact hcl
  | cons t rest ih =>
    show lookupA cid (Ledger.applyAll (Ledger.mutate l t).1 rest).clients = some cl
    exact ih (Ledger.mutate l t).1 (Ledger.mutate_locked_persist l t cid cl hcl hlk)

/-- Success path of a dispute row: the referenced amount moves from
`available` to `held` and the result is stored. -/
theorem Ledger.mutate_dispute_ok (l : Ledger) (t p : Transaction) (cl : Client)
    (hk : t.kind = .Dispute) (hp : lookupA t.id l.transactions = some p)
    (hcl : lookupA t.client_id l.clients = some cl) (hlk : cl.locked = false)
    (ha : ¬ t.amount < ZERO) :
    Ledger.mutate l t =
      ({ l with clients := insertA t.client_id ({ cl with available := cl.available - p.amount, held := cl.held + p.amount }) l.clients },
        .ok { cl with available := cl.available - p.amount, held := cl.held + p.amount }) := by
  have hoc := Ledger.old_client_eq l t.client_id cl hcl
  have h3 := Ledger.step_dispute l (l.old_client t.client_id) t p hk hp
  rw [← hoc]
  exact Ledger.mutate_eq_ok l l t _ ha (by rw [hoc]; exact hlk) h3

/-! Lemmas on decimal digit lists, for the parse/format round trip. -/

theorem digitVal_digitChar (d : Nat) (h : d < 10) : digitVal (digitChar d) = some d := by
  interval_cases d <;> decide

theorem digitChar_bounds (d : Nat) (h : d < 10) :
    48 ≤ (digitChar d).toNat ∧ (digitChar d).toNat ≤ 57 := by
  interval_cases d <;> decide

theorem ne_dot_of_digit (c : Char) (h : 48 ≤ c.toNat) : c ≠ '.' := by
  intro heq
  rw [heq] at h
  exact absurd h (by decide)

theorem parseDigitsAux_cons (acc : Nat) (c : Char) (cs : List Char) :
    parseDigitsAux acc (c :: cs) =
      match digitVal c with
      | some d => parseDigitsAux (acc * 10 + d) cs
      | none => none := rfl

theorem parseDigitsAux_append (acc : Nat) (l1 l2 : List Char) :
    parseDigitsAux acc (l1 ++ l2) =
      match parseDigitsAux acc l1 with
      | some v => parseDigitsAux v l2
      | none => none := by
  induction l1 generalizing acc with
  | nil => rfl
  | cons c cs ih =>
    rw [List.cons_append, parseDigitsAux_cons, parseDigitsAux_cons]
    cases digitVal c with
    | none => rfl
    | some d =>
      dsimp only
      exact ih (acc * 10 + d)

theorem parseDigitsAux_zeros (k : Nat) (l : List Char) :
    parseDigitsAux 0 (List.replicate k '0' ++ l) = parseDigitsAux 0 l := by
  induction k with
  | zero => rfl
  | succ k ih =>
    rw [List.replicate_succ, List.cons_append, parseDigitsAux_cons,
      show digitVal '0' = some 0 from by decide]
    simpa using ih

theorem parseDigitsAux_digits_bound (l : List Char)
    (h : ∀ c ∈ l, 48 ≤ c.toNat ∧ c.toNat ≤ 57) :
    ∀ acc, ∃ v, parseDigitsAux acc l = some v ∧ v < (acc + 1) * 10 ^ l.length := by
  induction l with
  | nil =>
    intro acc
    exact ⟨acc, rfl, by simp⟩
  | cons c cs ih =>
    intro acc
    obtain ⟨hc1, hc2⟩ := h c (by simp)
    have hd : digitVal c = some (c.toNat - 48) := by
      unfold digitVal
      rw [if_pos ⟨hc1, hc2⟩]
    obtain ⟨v, hv, hb⟩ := ih (fun c hc => h c (by simp [hc])) (acc * 10 + (c.toNat - 48))
    refine ⟨v, ?_, ?_⟩
    · unfold parseDigitsAux
      rw [hd]
      exact hv
    · calc v < (acc * 10 + (c.toNat - 48) + 1) * 10 ^ cs.length := hb
        _ ≤ ((acc + 1) * 10) * 10 ^ cs.length := by
            have : c.toNat - 48 ≤ 9 := by omega
            nlinarith [pow_pos (by norm_num : (0:Nat) < 10) cs.length]
        _ = (acc + 1) * 10 ^ (c :: cs).length := by
            rw [List.length_cons, pow_succ]
            ring

theorem natDigitsAux_parse (fuel : Nat) :
    ∀ n, n < fuel → ∀ acc,
      parseDigitsAux acc (natDigitsAux fuel n) =
        some (acc * 10 ^ (natDigitsAux fuel n).length + n) := by
  induction fuel with
  | zero => intro n hn; omega
  | succ fuel ih =>
    intro n hn acc
    unfold natDigitsAux
    by_cases h10 : n < 10
    · rw [if_pos h10]
      unfold parseDigitsAux
      rw [digitVal_digitChar n h10]
      show some (acc * 10 + n) = some (acc * 10 ^ 1 + n)
      rw [pow_one]
    · rw [if_neg h10]
      have hfuel : n / 10 < fuel := by omega
      rw [parseDigitsAux_append, ih (n / 10) hfuel acc]
      show parseDigitsAux (acc * 10 ^ (natDigitsAux fuel (n / 10)).length + n / 10)
        [digitChar (n % 10)] = _
      unfold parseDigitsAux
      rw [digitVal_digitChar (n % 10) (Nat.mod_lt n (by norm_num))]
      show some ((acc * 10 ^ (natDigitsAux fuel (n / 10)).length + n / 10) * 10 + n % 10) = _
      congr 1
      rw [List.length_append, List.length_singleton, pow_succ]
      have h10' : n / 10 * 10 + n % 10 = n := by omega
      calc (acc * 10 ^ (natDigitsAux fuel (n / 10)).length + n / 10) * 10 + n % 10
          = acc * (10 ^ (natDigitsAux fuel (n / 10)).length * 10) +
              (n / 10 * 10 + n % 10) := by ring
        _ = acc * (10 ^ (natDigitsAux fuel (n / 10)).length * 10) + n := by rw [h10']

theorem natDigitsAux_digits (fuel : Nat) :
    ∀ n, n < fuel → ∀ c ∈ natDigitsAux fuel n, 48 ≤ c.toNat ∧ c.toNat ≤ 57 := by
  induction fuel with
  | zero => intro n hn; omega
  | succ fuel ih =>
    intro n hn c hc
    unfold natDigitsAux at hc
    by_cases h10 : n < 10
    · rw [if_pos h10] at hc
      simp at hc
      subst hc
      exact digitChar_bounds n h10
    · rw [if_neg h10] at hc
      rcases List.mem_append.mp hc with hc | hc
      · exact ih (n / 10) (by omega) c hc
      · simp at hc
        subst hc
        exact digitChar_bounds (n % 10) (Nat.mod_lt n (by norm_num))

theorem natDigitsAux_ne_nil (fuel n : Nat) (h : 0 < fuel) : natDigitsAux fuel n ≠ [] := by
  cases fuel with
  | zero => omega
  | succ fuel =>
    unfold natDigitsAux
    by_cases h10 : n < 10
    · rw [if_pos h10]; simp
    · rw [if_neg h10]; simp

theorem natDigitsAux_length_le (fuel : Nat) :
    ∀ n k, n < fuel → n < 10 ^ k → 1 ≤ k → (natDigitsAux fuel n).length ≤ k := by
  induction fuel with
  | zero => intro n k hn; omega
  | succ fuel ih =>
    intro n k hn hk hk1
    unfold natDigitsAux
    by_cases h10 : n < 10
    · rw [if_pos h10]
      simpa using hk1
    · rw [if_neg h10]
      have hk2 : 2 ≤ k := by
        by_contra hlt
        have : k = 1 := by omega
        subst this
        simp at hk
        omega
      have hdiv : n / 10 < 10 ^ (k - 1) := by
        have : 10 ^ k = 10 ^ (k - 1) * 10 := by
          rw [← pow_succ]
          congr 1
          omega
        rw [Nat.div_lt_iff_lt_mul (by norm_num)]
        omega
      have := ih (n / 10) (k - 1) (by omega) hdiv (by omega)
      rw [List.length_append, List.length_singleton]
      omega

theorem natDigits_parse (n : Nat) :
    parseDigitsAux 0 (natDigits n) = some n := by
  show parseDigitsAux 0 (natDigitsAux (n + 1) n) = some n
  rw [natDigitsAux_parse (n + 1) n (by omega) 0]
  simp

theorem natDigits_ne_nil (n : Nat) : natDigits n ≠ [] :=
  natDigitsAux_ne_nil (n + 1) n (by omega)

theorem natDigits_digits (n : Nat) : ∀ c ∈ natDigits n, 48 ≤ c.toNat ∧ c.toNat ≤ 57 :=
  natDigitsAux_digits (n + 1) n (by omega)

theorem natDigits_length_le (n k : Nat) (hk : n < 10 ^ k) (hk1 : 1 ≤ k) :
    (natDigits n).length ≤ k :=
  natDigitsAux_length_le (n + 1) n k (by omega) hk hk1

/-! Lemmas on `splitDot`, the stripping loop, and the sign handling of
the integer parsers. -/

theorem splitDot_cons (c : Char) (cs : List Char) :
    splitDot (c :: cs) =
      if c = '.' then [] :: splitDot cs
      else
        match splitDot cs with
        | [] => [[c]]
        | p :: ps => (c :: p) :: ps := rfl

theorem splitDot_no_dot (l : List Char) (h : '.' ∉ l) : splitDot l = [l] := by
  induction l with
  | nil => rfl
  | cons c cs ih =>
    rw [splitDot_cons, if_neg (by intro hc; exact h (hc ▸ List.mem_cons_self c cs))]
    rw [ih (fun hc => h (List.mem_cons_of_mem c hc))]

theorem splitDot_append (l1 l2 : List Char) (h : '.' ∉ l1) :
    splitDot (l1 ++ '.' :: l2) = l1 :: splitDot l2 := by
  induction l1 with
  | nil =>
    show splitDot ('.' :: l2) = [] :: splitDot l2
    rw [splitDot_cons, if_pos rfl]
  | cons c cs ih =>
    rw [List.cons_append, splitDot_cons,
      if_neg (by intro hc; exact h (hc ▸ List.mem_cons_self c cs))]
    rw [ih (fun hc => h (List.mem_cons_of_mem c hc))]

theorem stripZerosAux_spec (fuel : Nat) :
    ∀ f w, 0 < f → f < 10 ^ w → w ≤ fuel →
      ∃ k, k < w ∧ stripZerosAux fuel f w = (f / 10 ^ k, w - k) ∧
        f % 10 ^ k = 0 ∧ (f / 10 ^ k) % 10 ≠ 0 := by
  induction fuel with
  | zero =>
    intro f w hf hfw hw
    have : w = 0 := by omega
    subst this
    simp at hfw
    omega
  | succ fuel ih =>
    intro f w hf hfw hw
    unfold stripZerosAux
    by_cases h10 : f % 10 = 0
    · rw [if_pos h10]
      have hf10 : 0 < f / 10 := by omega
      have hw1 : 1 ≤ w := by
        by_contra hlt
        have : w = 0 := by omega
        subst this
        simp at hfw
        omega
      have hfw10 : f / 10 < 10 ^ (w - 1) := by
        have hws : 10 ^ w = 10 ^ (w - 1) * 10 := by
          rw [← pow_succ]
          congr 1
          omega
        rw [Nat.div_lt_iff_lt_mul (by norm_num)]
        omega
      obtain ⟨k, hk, heq, hmod, hlast⟩ := ih (f / 10) (w - 1) hf10 hfw10 (by omega)
      refine ⟨k + 1, by omega, ?_, ?_, ?_⟩
      · rw [heq]
        congr 1
        · rw [Nat.div_div_eq_div_mul, ← pow_succ']
        · omega
      · obtain ⟨c, hc⟩ := Nat.dvd_of_mod_eq_zero hmod
        have hf : f = 10 ^ (k + 1) * c := by
          rw [pow_succ']
          have : f = 10 * (f / 10) := by omega
          rw [this, hc]
          ring
        rw [hf]
        exact Nat.mul_mod_right (10 ^ (k + 1)) c
      · rw [Nat.div_div_eq_div_mul, ← pow_succ'] at hlast
        exact hlast
    · rw [if_neg h10]
      have hw0 : 0 < w := by
        rcases Nat.eq_zero_or_pos w with hw | hw
        · subst hw
          simp at hfw
          omega
        · exact hw
      exact ⟨0, hw0, by simp, by simp [Nat.mod_one], by simpa using h10⟩

theorem parseNatDigits_of_ne_nil (l : List Char) (h : l ≠ []) :
    parseNatDigits l = parseDigitsAux 0 l := by
  cases l with
  | nil => exact absurd rfl h
  | cons c cs => rfl

/-- When the first character is not `+`, `parseU32` parses the whole
list as digits. -/
theorem parseU32_cons_not_plus (c : Char) (cs : List Char) (h : c ≠ '+') :
    parseU32 (c :: cs) =
      match parseNatDigits (c :: cs) with
      | some v => if v ≤ U32MAX then some v else none
      | none => none := by
  unfold parseU32
  split
  · rename_i rest heq
    injection heq with h1 h2
    exact absurd h1 h
  · rfl

/-- When the first character is neither `-` nor `+`, `parseI64` parses
the whole list as digits (the unsigned branch). -/
theorem parseI64_cons_no_sign (c : Char) (cs : List Char) (hm : c ≠ '-') (hp : c ≠ '+') :
    parseI64 (c :: cs) =
      match parseNatDigits (c :: cs) with
      | some v => if v ≤ I64MAXn then some ((v : Int)) else none
      | none => none := by
  unfold parseI64
  split
  · rename_i rest heq
    injection heq with h1 h2
    exact absurd h1 hm
  · rename_i rest heq
    injection heq with h1 h2
    exact absurd h1 hp
  · rfl

theorem parseI64_minus (cs : List Char) :
    parseI64 ('-' :: cs) =
      match parseNatDigits cs with
      | some v => if v ≤ I64MAXn + 1 then some (-(v : Int)) else none
      | none => none := rfl

theorem ne_plus_of_digit (c : Char) (h : 48 ≤ c.toNat) : c ≠ '+' := by
  intro heq
  rw [heq] at h
  exact absurd h (by decide)

theorem ne_minus_of_digit (c : Char) (h : 48 ≤ c.toNat) : c ≠ '-' := by
  intro heq
  rw [heq] at h
  exact absurd h (by decide)

theorem nodot_natDigits (n : Nat) : '.' ∉ natDigits n := by
  intro hc
  exact ne_dot_of_digit '.' (natDigits_digits n '.' hc).1 rfl

theorem nodot_intChars (w : Int) : '.' ∉ intChars w := by
  unfold intChars
  by_cases hw : w < 0
  · rw [if_pos hw]
    intro hc
    rcases List.mem_cons.mp hc with hc | hc
    · exact absurd hc.symm (by decide)
    · exact nodot_natDigits w.natAbs hc
  · rw [if_neg hw]
    exact nodot_natDigits w.natAbs

theorem nodot_padChars (width n : Nat) : '.' ∉ padChars width n := by
  unfold padChars
  intro hc
  rcases List.mem_append.mp hc with hc | hc
  · exact absurd (List.eq_of_mem_replicate hc).symm (by decide)
  · exact nodot_natDigits n hc

theorem parseI64_intChars_nonneg (n : Nat) (h : n ≤ I64MAXn) :
    parseI64 (natDigits n) = some ((n : Int)) := by
  obtain ⟨c, cs, hcons⟩ : ∃ c cs, natDigits n = c :: cs := by
    cases hn : natDigits n with
    | nil => exact absurd hn (natDigits_ne_nil n)
    | cons c cs => exact ⟨c, cs, rfl⟩
  have hd := (natDigits_digits n c (hcons ▸ List.mem_cons_self c cs)).1
  rw [hcons, parseI64_cons_no_sign c cs (ne_minus_of_digit c hd) (ne_plus_of_digit c hd),
    ← hcons, parseNatDigits_of_ne_nil _ (natDigits_ne_nil n), natDigits_parse]
  dsimp only
  rw [if_pos h]

theorem parseI64_intChars_neg (n : Nat) (h : n ≤ I64MAXn + 1) :
    parseI64 ('-' :: natDigits n) = some (-(n : Int)) := by
  rw [parseI64_minus, parseNatDigits_of_ne_nil _ (natDigits_ne_nil n), natDigits_parse]
  dsimp only
  rw [if_pos h]

theorem parseU32_of_digits (l : List Char) (pf : Nat) (hne : l ≠ [])
    (hd : ∀ c ∈ l, 48 ≤ c.toNat ∧ c.toNat ≤ 57)
    (hv : parseDigitsAux 0 l = some pf) (hb : pf ≤ U32MAX) : parseU32 l = some pf := by
  cases l with
  | nil => exact absurd rfl hne
  | cons c cs =>
    have hdc := (hd c (List.mem_cons_self c cs)).1
    rw [parseU32_cons_not_plus c cs (ne_plus_of_digit c hdc),
      parseNatDigits_of_ne_nil _ (by simp), hv]
    dsimp only
    rw [if_pos hb]

theorem padChars_length (width n : Nat) (h : (natDigits n).length ≤ width) :
    (padChars width n).length = width := by
  unfold padChars
  rw [List.length_append, List.length_replicate]
  omega

theorem parseU32_padChars (width f : Nat) (hb : f ≤ U32MAX) :
    parseU32 (padChars width f) = some f := by
  have hne : padChars width f ≠ [] := by
    unfold padChars
    simp [natDigits_ne_nil f]
  have hval : parseDigitsAux 0 (padChars width f) = some f := by
    unfold padChars
    rw [parseDigitsAux_zeros, natDigits_parse]
  cases hp : padChars width f with
  | nil => exact absurd hp hne
  | cons c cs =>
    have hcplus : c ≠ '+' := by
      have hmem : c ∈ padChars width f := by rw [hp]; exact List.mem_cons_self c cs
      unfold padChars at hmem
      rcases List.mem_append.mp hmem with hm | hm
      · rw [List.eq_of_mem_replicate hm]
        decide
      · exact ne_plus_of_digit c (natDigits_digits f c hm).1
    rw [parseU32_cons_not_plus c cs hcplus, parseNatDigits_of_ne_nil _ (by simp), ← hp, hval]
    dsimp only
    rw [if_pos hb]

/-- Parsing a dot-free whole part alone. -/
theorem from_str_whole (wcs : List Char) (w : Int)
    (hw : parseI64 wcs = some w) (hw0 : '.' ∉ wcs) :
    Amount.from_str (String.mk wcs) = .ok (Amount.new w 0) := by
  unfold Amount.from_str
  rw [show (String.mk wcs).data = wcs from rfl, splitDot_no_dot wcs hw0]
  dsimp only
  rw [hw]

/-- Parsing a whole part, a dot, and a fraction part of length 1..4. -/
theorem from_str_frac (wcs fd : List Char) (w : Int) (pf : Nat)
    (hw : parseI64 wcs = some w) (hw0 : '.' ∉ wcs) (hfd : '.' ∉ fd)
    (hpu : parseU32 fd = some pf) (hlen1 : fd.length ≠ 0) (hlen4 : fd.length ≤ 4) :
    Amount.from_str (String.mk (wcs ++ '.' :: fd)) =
      .ok (Amount.new w (pf * 10 ^ (4 - fd.length))) := by
  unfold Amount.from_str
  rw [show (String.mk (wcs ++ '.' :: fd)).data = wcs ++ '.' :: fd from rfl,
    splitDot_append wcs fd hw0, splitDot_no_dot fd hfd]
  dsimp only
  rw [hw]
  dsimp only
  rw [hpu]
  dsimp only
  rw [if_neg hlen1, if_pos hlen4]

/-- Parsing a whole part, a dot, and a `u32`-parseable fraction part
longer than 4 characters yields `PrecisionTooHigh`. -/
theorem from_str_precision (wcs fd : List Char) (w : Int) (pf : Nat)
    (hw : parseI64 wcs = some w) (hw0 : '.' ∉ wcs) (hfd : '.' ∉ fd)
    (hpu : parseU32 fd = some pf) (hlen : 4 < fd.length) :
    Amount.from_str (String.mk (wcs ++ '.' :: fd)) =
      .error (.PrecisionTooHigh (String.mk (wcs ++ '.' :: fd))) := by
  unfold Amount.from_str
  rw [show (String.mk (wcs ++ '.' :: fd)).data = wcs ++ '.' :: fd from rfl,
    splitDot_append wcs fd hw0, splitDot_no_dot fd hfd]
  dsimp only
  rw [hw]
  dsimp only
  rw [hpu]
  dsimp only
  rw [if_neg (by omega), if_neg (by omega)]

theorem tdiv_ofNat_10000 (n : Nat) : ((n : Int)).tdiv 10000 = ((n / 10000 : Nat) : Int) := rfl

theorem tmod_ofNat_10000 (n : Nat) : ((n : Int)).tmod 10000 = ((n % 10000 : Nat) : Int) := rfl

theorem tdiv_negSucc_10000 (n : Nat) :
    (Int.negSucc n).tdiv 10000 = -(((n + 1) / 10000 : Nat) : Int) := rfl

theorem tmod_negSucc_10000 (n : Nat) :
    (Int.negSucc n).tmod 10000 = -(((n + 1) % 10000 : Nat) : Int) := rfl

/-- Shape of `formatChars` for a non-negative value with zero fraction. -/
theorem formatChars_nonneg_nofrac (n : Nat) (hf : n % 10000 = 0) :
    Amount.formatChars { amount_fx4 := (n : Int) } = natDigits (n / 10000) := by
  unfold Amount.formatChars
  dsimp only
  rw [tdiv_ofNat_10000, tmod_ofNat_10000, Int.natAbs_ofNat, if_pos hf]
  unfold intChars
  rw [if_neg (by simp; positivity), Int.natAbs_ofNat]

/-- Shape of `formatChars` for a non-negative value with a nonzero
fraction. -/
theorem formatChars_nonneg_frac (n : Nat) (hf : n % 10000 ≠ 0) :
    Amount.formatChars { amount_fx4 := (n : Int) } =
      natDigits (n / 10000) ++ '.' ::
        padChars (stripZerosAux 5 (n % 10000) 4).2 (stripZerosAux 5 (n % 10000) 4).1 := by
  unfold Amount.formatChars
  dsimp only
  rw [tdiv_ofNat_10000, tmod_ofNat_10000, Int.natAbs_ofNat, if_neg hf]
  unfold intChars
  rw [if_neg (by simp; positivity), Int.natAbs_ofNat]

/-- Shape of `formatChars` for a value at or below -1.0000 with zero
fraction. -/
theorem formatChars_neg_nofrac (n : Nat) (hM : 10000 ≤ n + 1) (hf : (n + 1) % 10000 = 0) :
    Amount.formatChars { amount_fx4 := Int.negSucc n } = '-' :: natDigits ((n + 1) / 10000) := by
  unfold Amount.formatChars
  dsimp only
  rw [tdiv_negSucc_10000, tmod_negSucc_10000]
  rw [show (-(((n + 1) % 10000 : Nat) : Int)).natAbs = (n + 1) % 10000 by omega]
  rw [if_pos hf]
  unfold intChars
  have hq : 1 ≤ (n + 1) / 10000 := (Nat.one_le_div_iff (by norm_num)).mpr hM
  rw [if_pos (by
    have : (1 : Int) ≤ (((n + 1) / 10000 : Nat) : Int) := by exact_mod_cast hq
    omega)]
  rw [show (-(((n + 1) / 10000 : Nat) : Int)).natAbs = (n + 1) / 10000 by omega]

/-- Shape of `formatChars` for a value at or below -1.0000 with a
nonzero fraction. -/
theorem formatChars_neg_frac (n : Nat) (hM : 10000 ≤ n + 1) (hf : (n + 1) % 10000 ≠ 0) :
    Amount.formatChars { amount_fx4 := Int.negSucc n } =
      ('-' :: natDigits ((n + 1) / 10000)) ++ '.' ::
        padChars (stripZerosAux 5 ((n + 1) % 10000) 4).2 (stripZerosAux 5 ((n + 1) % 10000) 4).1 := by
  unfold Amount.formatChars
  dsimp only
  rw [tdiv_negSucc_10000, tmod_negSucc_10000]
  rw [show (-(((n + 1) % 10000 : Nat) : Int)).natAbs = (n + 1) % 10000 by omega]
  rw [if_neg hf]
  unfold intChars
  have hq : 1 ≤ (n + 1) / 10000 := (Nat.one_le_div_iff (by norm_num)).mpr hM
  rw [if_pos (by
    have : (1 : Int) ≤ (((n + 1) / 10000 : Nat) : Int) := by exact_mod_cast hq
    omega)]
  rw [show (-(((n + 1) / 10000 : Nat) : Int)).natAbs = (n + 1) / 10000 by omega]

theorem Ledger.applyAll_append (l : Ledger) (ts1 ts2 : List Transaction) :
    Ledger.applyAll l (ts1 ++ ts2) = Ledger.applyAll (Ledger.applyAll l ts1) ts2 := by
  simp [Ledger.applyAll, List.foldl_append]

/-- Invariant of a run of `n` identical dispute rows naming a recorded
transaction `p` and an unlocked client `cl`: the history entry survives
and each repetition moves `p.amount` from `available` to `held` again. -/
theorem Ledger.repeated_dispute_invariant (l : Ledger) (T B : Nat) (p : Transaction)
    (cl : Client) (a0 : Amount)
    (hp : lookupA T l.transactions = some p)
    (hcl : lookupA B l.clients = some cl)
    (hlk : cl.locked = false)
    (ha : ¬ a0 < ZERO) (n : Nat) :
    lookupA B (Ledger.applyAll l
        (List.replicate n { id := T, client_id := B, kind := .Dispute, amount := a0 })).clients =
      some { cl with
        available := { amount_fx4 := cl.available.amount_fx4 - n * p.amount.amount_fx4 },
        held := { amount_fx4 := cl.held.amount_fx4 + n * p.amount.amount_fx4 } } ∧
    lookupA T (Ledger.applyAll l
        (List.replicate n { id := T, client_id := B, kind := .Dispute, amount := a0 })).transactions =
      some p := by
  induction n with
  | zero =>
    refine ⟨?_, hp⟩
    simpa using hcl
  | succ n ih =>
    rcases ih with ⟨ihc, iht⟩
    rw [List.replicate_succ', Ledger.applyAll_append]
    have hm := Ledger.mutate_dispute_ok
      (Ledger.applyAll l (List.replicate n { id := T, client_id := B, kind := .Dispute, amount := a0 }))
      { id := T, client_id := B, kind := .Dispute, amount := a0 } p _ rfl iht ihc hlk ha
    constructor
    · show lookupA B (Ledger.mutate _ _).1.clients = _
      rw [hm]
      show lookupA B (insertA B _ _) = _
      rw [lookupA_insertA_self]
      congr 1
      simp only [Amount.sub_def, Amount.add_def, Client.mk.injEq, Amount.mk.injEq,
        true_and, and_true]
      constructor <;> push_cast <;> ring
    · show lookupA T (Ledger.mutate _ _).1.transactions = _
      rw [hm]
      exact iht

theorem Ledger.step_chargeback_missing (l : Ledger) (oc : Client) (t : Transaction)
    (hk : t.kind = .Chargeback) (hp : lookupA t.id l.transactions = none) :
    Ledger.step l oc t = (l, .error .ReferencedTransactionNonexistent) := by
  unfold Ledger.step
  rw [hk]
  dsimp only
  rw [hp]

/-! Claim theorems. -/

/-- C1 (code_bug evidence): from a fresh ledger, depositing 10 for client
1 as transaction 1 and then resolving transaction 1 — which was never
disputed — drives client 1's held balance to -10, violating the claimed
non-negativity invariant of `Ledger::mutate` sequences. -/
theorem c1_resolve_drives_held_negative :
    (lookupA 1 (Ledger.applyAll Ledger.new
      [ { id := 1, client_id := 1, kind := .Deposit, amount := { amount_fx4 := 100000 } },
        { id := 1, client_id := 1, kind := .Resolve, amount := { amount_fx4 := 0 } } ]).clients).map
      (fun c => c.held.amount_fx4) = some (-100000) ∧ (-100000 : Int) < 0 := by
  decide

/-- C2 (code_bug evidence): after a successful deposit of 10 recorded
under id 1, a second successful deposit of 5 with the colliding id 1
replaces the stored record (`HashMap::insert` overwrites), so a
subsequent dispute of id 1 moves 5 — the second transaction's amount —
not the first-recorded 10: the history is last-write-wins, not
first-write-wins. -/
theorem c2_history_overwritten :
    (Ledger.mutate (Ledger.mutate Ledger.new
        { id := 1, client_id := 1, kind := .Deposit, amount := { amount_fx4 := 100000 } }).1
        { id := 1, client_id := 1, kind := .Deposit, amount := { amount_fx4 := 50000 } }).2 =
      .ok { id := 1, available := { amount_fx4 := 150000 },
            held := { amount_fx4 := 0 }, locked := false } ∧
    (lookupA 1 (Ledger.applyAll Ledger.new
      [ { id := 1, client_id := 1, kind := .Deposit, amount := { amount_fx4 := 100000 } },
        { id := 1, client_id := 1, kind := .Deposit, amount := { amount_fx4 := 50000 } } ]).transactions).map
      (fun p => p.amount) = some { amount_fx4 := 50000 } ∧
    (lookupA 1 (Ledger.applyAll Ledger.new
      [ { id := 1, client_id := 1, kind := .Deposit, amount := { amount_fx4 := 100000 } },
        { id := 1, client_id := 1, kind := .Deposit, amount := { amount_fx4 := 50000 } },
        { id := 1, client_id := 1, kind := .Dispute, amount := { amount_fx4 := 0 } } ]).clients).map
      (fun c => c.held) = some { amount_fx4 := 50000 } ∧
    ({ amount_fx4 := 50000 } : Amount) ≠ { amount_fx4 := 100000 } := by
  decide

/-- C4: whenever `Ledger::mutate` returns an error, the ledger — both the
account map and the referenceable history — is exactly as it was before
the call. -/
theorem c4_failed_mutate_is_atomic (l : Ledger) (t : Transaction) (e : TransactionError)
    (h : (Ledger.mutate l t).2 = .error e) : (Ledger.mutate l t).1 = l :=
  Ledger.mutate_error_unchanged l t e h

/-- Witness for C4: withdrawing from a fresh ledger fails and leaves the
ledger untouched. -/
theorem c4_failed_mutate_is_atomic_witness :
    (Ledger.mutate Ledger.new
      { id := 0, client_id := 0, kind := .Withdrawal, amount := { amount_fx4 := 125000 } }).2 =
      .error .NegativeBalance ∧
    (Ledger.mutate Ledger.new
      { id := 0, client_id := 0, kind := .Withdrawal, amount := { amount_fx4 := 125000 } }).1 =
      Ledger.new :=
  ⟨by decide, c4_failed_mutate_is_atomic Ledger.new
    { id := 0, client_id := 0, kind := .Withdrawal, amount := { amount_fx4 := 125000 } }
    .NegativeBalance (by decide)⟩

/-- C3 counterexample: the representable value -0.5 (scaled -5000)
formats as "0.5" — the truncating division `-5000 / 10000 = 0` drops the
sign — so parsing the formatted string yields +0.5, not -0.5: the
round-trip fails on representable values strictly between -1 and 0. -/
theorem c3_roundtrip_cex :
    Amount.format { amount_fx4 := -5000 } = "0.5" ∧
    Amount.from_str (Amount.format { amount_fx4 := -5000 }) =
      .ok { amount_fx4 := 5000 } ∧
    ({ amount_fx4 := 5000 } : Amount) ≠ { amount_fx4 := -5000 } := by
  decide

/-- C3 amended: for every representable (64-bit) fixed-point value that
is non-negative or at most -1.0000, parsing the formatted string gives
back exactly the value; the claim fails only for values strictly between
-1 and 0, where formatting drops the sign. -/
theorem c3_roundtrip_amended (a : Amount)
    (hlo : -(2 ^ 63) ≤ a.amount_fx4) (hhi : a.amount_fx4 < 2 ^ 63)
    (hdom : 0 ≤ a.amount_fx4 ∨ a.amount_fx4 ≤ -10000) :
    Amount.from_str (Amount.format a) = .ok a := by
  have hpow : (2 : Int) ^ 63 = 9223372036854775808 := by norm_num
  rcases a with ⟨v⟩
  unfold Amount.format
  cases v with
  | ofNat n =>
    rw [show Int.ofNat n = ((n : Nat) : Int) from rfl] at hlo hhi hdom ⊢
    dsimp only at hlo hhi hdom
    rw [hpow] at hhi
    have hn : n ≤ I64MAXn := by
      show n ≤ 9223372036854775807
      omega
    have hdivle : n / 10000 ≤ I64MAXn := le_trans (Nat.div_le_self n 10000) hn
    by_cases hf : n % 10000 = 0
    · rw [formatChars_nonneg_nofrac n hf,
        from_str_whole _ _ (parseI64_intChars_nonneg _ hdivle) (nodot_natDigits _)]
      congr 1
      unfold Amount.new
      rw [if_pos (by positivity)]
      simp only [Amount.mk.injEq]
      push_cast
      omega
    · have hflt : n % 10000 < 10 ^ 4 := by
        have := Nat.mod_lt n (show 0 < 10000 by norm_num)
        norm_num
        omega
      obtain ⟨k, hk, heq, hmod, hlast⟩ :=
        stripZerosAux_spec 5 (n % 10000) 4 (Nat.pos_of_ne_zero hf) hflt (by norm_num)
      rw [formatChars_nonneg_frac n hf, heq]
      dsimp only
      have hdivlt : n % 10000 / 10 ^ k < 10 ^ (4 - k) := by
        rw [Nat.div_lt_iff_lt_mul (pow_pos (by norm_num) k), ← pow_add]
        have h4 : 4 - k + k = 4 := by omega
        rw [h4]
        exact hflt
      have hlenle : (natDigits (n % 10000 / 10 ^ k)).length ≤ 4 - k :=
        natDigits_length_le _ _ hdivlt (by omega)
      have hplen : (padChars (4 - k) (n % 10000 / 10 ^ k)).length = 4 - k :=
        padChars_length _ _ hlenle
      have hfb : n % 10000 / 10 ^ k ≤ U32MAX := by
        show _ ≤ 4294967295
        have := Nat.div_le_self (n % 10000) (10 ^ k)
        omega
      rw [from_str_frac _ _ _ _ (parseI64_intChars_nonneg _ hdivle) (nodot_natDigits _)
        (nodot_padChars _ _) (parseU32_padChars _ _ hfb) (by rw [hplen]; omega)
        (by rw [hplen]; omega)]
      congr 1
      unfold Amount.new
      rw [if_pos (by positivity)]
      simp only [Amount.mk.injEq]
      rw [hplen, show 4 - (4 - k) = k from by omega,
        Nat.div_mul_cancel (Nat.dvd_of_mod_eq_zero hmod)]
      push_cast
      omega
  | negSucc n =>
    dsimp only at hlo hhi hdom
    have hneg : -((n : Int) + 1) ≤ -10000 := by
      rcases hdom with h | h
      · rw [Int.negSucc_eq] at h
        omega
      · rw [Int.negSucc_eq] at h
        exact h
    have hM : 10000 ≤ n + 1 := by omega
    rw [hpow, Int.negSucc_eq] at hlo
    have hM63 : n + 1 ≤ 9223372036854775808 := by omega
    have hdivle : (n + 1) / 10000 ≤ I64MAXn + 1 := by
      show _ ≤ 9223372036854775807 + 1
      have := Nat.div_le_self (n + 1) 10000
      omega
    have hq : 1 ≤ (n + 1) / 10000 := (Nat.one_le_div_iff (by norm_num)).mpr hM
    have hnodot : '.' ∉ '-' :: natDigits ((n + 1) / 10000) := by
      intro hc
      rcases List.mem_cons.mp hc with hc | hc
      · exact absurd hc.symm (by decide)
      · exact nodot_natDigits _ hc
    by_cases hf : (n + 1) % 10000 = 0
    · rw [formatChars_neg_nofrac n hM hf,
        from_str_whole _ _ (parseI64_intChars_neg _ hdivle) hnodot]
      congr 1
      unfold Amount.new
      rw [if_neg (by omega)]
      simp only [Amount.mk.injEq, Int.negSucc_eq]
      push_cast
      omega
    · have hflt : (n + 1) % 10000 < 10 ^ 4 := by
        have := Nat.mod_lt (n + 1) (show 0 < 10000 by norm_num)
        norm_num
        omega
      obtain ⟨k, hk, heq, hmod, hlast⟩ :=
        stripZerosAux_spec 5 ((n + 1) % 10000) 4 (Nat.pos_of_ne_zero hf) hflt (by norm_num)
      rw [formatChars_neg_frac n hM hf, heq]
      dsimp only
      have hdivlt : (n + 1) % 10000 / 10 ^ k < 10 ^ (4 - k) := by
        rw [Nat.div_lt_iff_lt_mul (pow_pos (by norm_num) k), ← pow_add]
        have h4 : 4 - k + k = 4 := by omega
        rw [h4]
        exact hflt
      have hlenle : (natDigits ((n + 1) % 10000 / 10 ^ k)).length ≤ 4 - k :=
        natDigits_length_le _ _ hdivlt (by omega)
      have hplen : (padChars (4 - k) ((n + 1) % 10000 / 10 ^ k)).length = 4 - k :=
        padChars_length _ _ hlenle
      have hfb : (n + 1) % 10000 / 10 ^ k ≤ U32MAX := by
        show _ ≤ 4294967295
        have := Nat.div_le_self ((n + 1) % 10000) (10 ^ k)
        omega
      rw [from_str_frac _ _ _ _ (parseI64_intChars_neg _ hdivle) hnodot
        (nodot_padChars _ _) (parseU32_padChars _ _ hfb) (by rw [hplen]; omega)
        (by rw [hplen]; omega)]
      congr 1
      unfold Amount.new
      rw [if_neg (by omega)]
      simp only [Amount.mk.injEq, Int.negSucc_eq]
      rw [hplen, show 4 - (4 - k) = k from by omega,
        Nat.div_mul_cancel (Nat.dvd_of_mod_eq_zero hmod)]
      push_cast
      omega

/-- Witness for C3 amended: -12.5 (scaled -125000) round-trips. -/
theorem c3_roundtrip_amended_witness :
    Amount.from_str (Amount.format { amount_fx4 := -125000 }) =
      .ok { amount_fx4 := -125000 } :=
  c3_roundtrip_amended { amount_fx4 := -125000 } (by decide) (by decide) (by decide)

/-- C7 counterexample: parsing "-0.5" parses the whole part "-0" to the
integer 0, takes the non-negative branch of `Amount::new`, and adds the
fraction — the minus sign is lost and the result is +0.5, not a value
strictly less than zero. -/
theorem c7_minus_zero_cex :
    Amount.from_str "-0.5" = .ok { amount_fx4 := 5000 } ∧
    ¬ ({ amount_fx4 := 5000 } : Amount).amount_fx4 < 0 := by
  decide

/-- C7 amended: for an input "-W.F" whose whole digit string W has a
nonzero value, parsing succeeds and the minus sign applies to both the
whole and the fractional part, yielding a strictly negative value; when
W's value is zero (e.g. "-0.5") the sign is dropped and the result is
non-negative, per the counterexample. -/
theorem c7_negative_parse (wd fd : List Char) (wv fv : Nat)
    (hwd : ∀ c ∈ wd, 48 ≤ c.toNat ∧ c.toNat ≤ 57)
    (hwdne : wd ≠ [])
    (hwv : parseDigitsAux 0 wd = some wv)
    (hwv1 : 1 ≤ wv) (hwv63 : wv ≤ I64MAXn + 1)
    (hfd : ∀ c ∈ fd, 48 ≤ c.toNat ∧ c.toNat ≤ 57)
    (hfdne : fd ≠ []) (hfdlen : fd.length ≤ 4)
    (hfv : parseDigitsAux 0 fd = some fv) :
    Amount.from_str (String.mk (('-' :: wd) ++ '.' :: fd)) =
      .ok { amount_fx4 := -(wv : Int) * 10000 - (fv : Int) * 10 ^ (4 - fd.length) } ∧
    -(wv : Int) * 10000 - (fv : Int) * 10 ^ (4 - fd.length) < 0 := by
  have hw : parseI64 ('-' :: wd) = some (-(wv : Int)) := by
    rw [parseI64_minus, parseNatDigits_of_ne_nil wd hwdne, hwv]
    dsimp only
    rw [if_pos hwv63]
  have hwnd : '.' ∉ '-' :: wd := by
    intro hc
    rcases List.mem_cons.mp hc with hc | hc
    · exact absurd hc.symm (by decide)
    · exact ne_dot_of_digit _ (hwd _ hc).1 rfl
  have hfnd : '.' ∉ fd := fun hc => ne_dot_of_digit _ (hfd _ hc).1 rfl
  have hfvb : fv ≤ U32MAX := by
    obtain ⟨v, hv, hb⟩ := parseDigitsAux_digits_bound fd hfd 0
    rw [hfv] at hv
    injection hv with hv
    subst hv
    have hple : 10 ^ fd.length ≤ 10 ^ 4 := Nat.pow_le_pow_right (by norm_num) hfdlen
    show fv ≤ 4294967295
    norm_num at hb hple
    omega
  have hpu : parseU32 fd = some fv := parseU32_of_digits fd fv hfdne hfd hfv hfvb
  have hneg : -(wv : Int) * 10000 - (fv : Int) * 10 ^ (4 - fd.length) < 0 := by
    have h0 : (0 : Int) ≤ (fv : Int) * 10 ^ (4 - fd.length) := by positivity
    have h1 : (1 : Int) ≤ (wv : Int) := by exact_mod_cast hwv1
    linarith
  refine ⟨?_, hneg⟩
  rw [from_str_frac ('-' :: wd) fd (-(wv : Int)) fv hw hwnd hfnd hpu
    (fun h => hfdne (List.length_eq_zero.mp h)) hfdlen]
  congr 1
  unfold Amount.new
  rw [if_neg (by omega)]
  simp only [Amount.mk.injEq]
  push_cast
  ring

/-- Witness for C7 amended: "-1.5" parses to -1.5 (scaled -15000),
strictly negative. -/
theorem c7_negative_parse_witness :
    Amount.from_str (String.mk (('-' :: ['1']) ++ '.' :: ['5'])) =
      .ok { amount_fx4 := -((1 : Nat) : Int) * 10000 -
        ((5 : Nat) : Int) * 10 ^ (4 - ['5'].length) } ∧
    -((1 : Nat) : Int) * 10000 - ((5 : Nat) : Int) * 10 ^ (4 - ['5'].length) < 0 :=
  c7_negative_parse ['1'] ['5'] 1 5 (by decide) (by decide) (by decide) (by decide)
    (by decide) (by decide) (by decide) (by decide) (by decide)

/-- C8 counterexample: the fraction digits are parsed as a `u32` before
the length check, so the string "1.9999999999" — an integer whole part,
a dot, and a 10-digit fraction whose value exceeds `u32::MAX` — fails
with `Malformed`, not `PrecisionTooHigh`. -/
theorem c8_overflow_fraction_cex :
    Amount.from_str "1.9999999999" = .error (.Malformed "1.9999999999") ∧
    Amount.Error.Malformed "1.9999999999" ≠ .PrecisionTooHigh "1.9999999999" := by
  decide

/-- C8 amended: an input with an integer whole part, a dot, and a
fraction of more than 4 decimal digits fails with `PrecisionTooHigh`
provided the fraction's numeric value fits in a `u32`; when the digits
overflow `u32` the error is `Malformed` instead, per the
counterexample. -/
theorem c8_precision_error (wd fd : List Char) (wv : Int) (fv : Nat)
    (hwv : parseI64 wd = some wv) (hwdnd : '.' ∉ wd)
    (hfd : ∀ c ∈ fd, 48 ≤ c.toNat ∧ c.toNat ≤ 57)
    (hlen : 4 < fd.length)
    (hfv : parseDigitsAux 0 fd = some fv)
    (hfvb : fv ≤ U32MAX) :
    Amount.from_str (String.mk (wd ++ '.' :: fd)) =
      .error (.PrecisionTooHigh (String.mk (wd ++ '.' :: fd))) := by
  have hfdne : fd ≠ [] := by
    intro h
    rw [h] at hlen
    simp at hlen
  have hnd : '.' ∉ fd := fun hc => ne_dot_of_digit _ (hfd _ hc).1 rfl
  exact from_str_precision wd fd wv fv hwv hwdnd hnd
    (parseU32_of_digits fd fv hfdne hfd hfv hfvb) hlen

/-- Witness for C8 amended: "2.99999" (five fraction digits, value
99999, fits in u32) fails with `PrecisionTooHigh`. -/
theorem c8_precision_error_witness :
    Amount.from_str (String.mk (['2'] ++ '.' :: ['9', '9', '9', '9', '9'])) =
      .error (.PrecisionTooHigh (String.mk (['2'] ++ '.' :: ['9', '9', '9', '9', '9']))) :=
  c8_precision_error ['2'] ['9', '9', '9', '9', '9'] 2 99999 (by decide) (by decide)
    (by decide) (by decide) (by decide) (by decide)

/-- C5 counterexample: the negative-amount guard of `Ledger::mutate`
runs before the locked-account guard, so after a chargeback has locked
client 1, a deposit row for client 1 with amount -1 fails with
`NegativeTransaction`, not `ClientLocked` — refuting "fails with
`ClientLocked` ... of any amount". -/
theorem c5_locked_account_negative_row_cex :
    (lookupA 1 (Ledger.applyAll Ledger.new
      [ { id := 1, client_id := 1, kind := .Deposit, amount := { amount_fx4 := 100000 } },
        { id := 1, client_id := 1, kind := .Dispute, amount := { amount_fx4 := 0 } },
        { id := 1, client_id := 1, kind := .Chargeback, amount := { amount_fx4 := 0 } } ]).clients).map
      (fun c => c.locked) = some true ∧
    (Ledger.mutate (Ledger.applyAll Ledger.new
      [ { id := 1, client_id := 1, kind := .Deposit, amount := { amount_fx4 := 100000 } },
        { id := 1, client_id := 1, kind := .Dispute, amount := { amount_fx4 := 0 } },
        { id := 1, client_id := 1, kind := .Chargeback, amount := { amount_fx4 := 0 } } ])
      { id := 5, client_id := 1, kind := .Deposit, amount := { amount_fx4 := -10000 } }).2 =
      .error .NegativeTransaction ∧
    TransactionError.NegativeTransaction ≠ TransactionError.ClientLocked := by
  decide

/-- C5 amended: after a successful chargeback transition the client's
locked flag is true, the locked client is stored, and every subsequent
`mutate` naming that account whose row amount is non-negative — of any
transaction kind, after any interleaved transaction sequence — fails
with `ClientLocked` (a negative row amount instead fails with
`NegativeTransaction`, per the counterexample). -/
theorem c5_chargeback_terminality (l : Ledger) (t : Transaction) (c : Client)
    (hk : t.kind = .Chargeback) (hok : (Ledger.mutate l t).2 = .ok c) :
    c.locked = true ∧
    lookupA t.client_id (Ledger.mutate l t).1.clients = some c ∧
    ∀ ts t2, t2.client_id = t.client_id → ¬ t2.amount < ZERO →
      (Ledger.mutate (Ledger.applyAll (Ledger.mutate l t).1 ts) t2).2 =
        .error .ClientLocked := by
  by_cases h1 : t.amount < ZERO
  · rw [Ledger.mutate_eq_neg l t h1] at hok
    exact absurd hok (by simp)
  cases h2 : (l.old_client t.client_id).locked with
  | true =>
    rw [Ledger.mutate_eq_locked l t h1 h2] at hok
    exact absurd hok (by simp)
  | false =>
    rcases h3 : Ledger.step l (l.old_client t.client_id) t with ⟨l2, r⟩
    cases r with
    | error e =>
      rw [Ledger.mutate_eq_err l l2 t e h1 h2 h3] at hok
      exact absurd hok (by simp)
    | ok c0 =>
      have hm := Ledger.mutate_eq_ok l l2 t c0 h1 h2 h3
      rw [hm] at hok
      have hc0 : c0 = c := by simpa using hok
      subst hc0
      have hlocked : c0.locked = true := by
        cases hp : lookupA t.id l.transactions with
        | none =>
          rw [Ledger.step_chargeback_missing l (l.old_client t.client_id) t hk hp] at h3
          simp at h3
        | some p =>
          rw [Ledger.step_chargeback l (l.old_client t.client_id) t p hk hp] at h3
          have : Except.ok ({ l.old_client t.client_id with
              held := (l.old_client t.client_id).held - p.amount, locked := true } : Client) =
              .ok c0 := congrArg Prod.snd h3
          have : ({ l.old_client t.client_id with
              held := (l.old_client t.client_id).held - p.amount, locked := true } : Client) =
              c0 := by simpa using this
          rw [← this]
      have hstored : lookupA t.client_id (Ledger.mutate l t).1.clients = some c0 := by
        rw [hm]
        exact lookupA_insertA_self t.client_id c0 l2.clients
      refine ⟨hlocked, hstored, ?_⟩
      intro ts t2 hcid ha2
      have hpers := Ledger.applyAll_locked_persist ts (Ledger.mutate l t).1 t.client_id c0
        hstored hlocked
      rw [Ledger.mutate_on_locked (Ledger.applyAll (Ledger.mutate l t).1 ts) t2 c0
        (by rw [hcid]; exact hpers) hlocked ha2]

/-- Witness for C5 amended: deposit 10, dispute it, charge it back; the
chargeback locks client 1 and a later zero-amount withdrawal row (after
an interleaved deposit by client 2) fails with `ClientLocked`. -/
theorem c5_chargeback_terminality_witness :
    (Ledger.mutate (Ledger.applyAll Ledger.new
      [ { id := 1, client_id := 1, kind := .Deposit, amount := { amount_fx4 := 100000 } },
        { id := 1, client_id := 1, kind := .Dispute, amount := { amount_fx4 := 0 } } ])
      { id := 1, client_id := 1, kind := .Chargeback, amount := { amount_fx4 := 0 } }).2 =
      .ok { id := 1, available := { amount_fx4 := 0 }, held := { amount_fx4 := 0 }, locked := true } ∧
    ({ id := 1, available := { amount_fx4 := 0 }, held := { amount_fx4 := 0 }, locked := true } : Client).locked = true ∧
    lookupA 1 (Ledger.mutate (Ledger.applyAll Ledger.new
      [ { id := 1, client_id := 1, kind := .Deposit, amount := { amount_fx4 := 100000 } },
        { id := 1, client_id := 1, kind := .Dispute, amount := { amount_fx4 := 0 } } ])
      { id := 1, client_id := 1, kind := .Chargeback, amount := { amount_fx4 := 0 } }).1.clients =
      some { id := 1, available := { amount_fx4 := 0 }, held := { amount_fx4 := 0 }, locked := true } ∧
    (Ledger.mutate (Ledger.applyAll (Ledger.mutate (Ledger.applyAll Ledger.new
      [ { id := 1, client_id := 1, kind := .Deposit, amount := { amount_fx4 := 100000 } },
        { id := 1, client_id := 1, kind := .Dispute, amount := { amount_fx4 := 0 } } ])
      { id := 1, client_id := 1, kind := .Chargeback, amount := { amount_fx4 := 0 } }).1
      [ { id := 2, client_id := 2, kind := .Deposit, amount := { amount_fx4 := 10000 } } ])
      { id := 3, client_id := 1, kind := .Withdrawal, amount := { amount_fx4 := 0 } }).2 =
      .error .ClientLocked := by
  have h := c5_chargeback_terminality (Ledger.applyAll Ledger.new
      [ { id := 1, client_id := 1, kind := .Deposit, amount := { amount_fx4 := 100000 } },
        { id := 1, client_id := 1, kind := .Dispute, amount := { amount_fx4 := 0 } } ])
      { id := 1, client_id := 1, kind := .Chargeback, amount := { amount_fx4 := 0 } }
      { id := 1, available := { amount_fx4 := 0 }, held := { amount_fx4 := 0 }, locked := true }
      rfl (by decide)
  exact ⟨by decide, h.1, h.2.1,
    h.2.2 [ { id := 2, client_id := 2, kind := .Deposit, amount := { amount_fx4 := 10000 } } ]
      { id := 3, client_id := 1, kind := .Withdrawal, amount := { amount_fx4 := 0 } }
      rfl (by decide)⟩

/-- C9 counterexample: dispute/resolve/chargeback rows are not
unconditionally successful for every ledger whose history holds the
referenced id — here the history holds transaction 7 recorded for client
1, but the dispute row naming client 2 and id 7 fails with
`ClientLocked` because client 2 is locked. -/
theorem c9_cross_client_dispute_cex :
    (lookupA 7 (Ledger.applyAll Ledger.new
      [ { id := 7, client_id := 1, kind := .Deposit, amount := { amount_fx4 := 100000 } },
        { id := 8, client_id := 2, kind := .Deposit, amount := { amount_fx4 := 50000 } },
        { id := 8, client_id := 2, kind := .Dispute, amount := { amount_fx4 := 0 } },
        { id := 8, client_id := 2, kind := .Chargeback, amount := { amount_fx4 := 0 } } ]).transactions).map
      (fun p => p.client_id) = some 1 ∧
    (Ledger.mutate (Ledger.applyAll Ledger.new
      [ { id := 7, client_id := 1, kind := .Deposit, amount := { amount_fx4 := 100000 } },
        { id := 8, client_id := 2, kind := .Deposit, amount := { amount_fx4 := 50000 } },
        { id := 8, client_id := 2, kind := .Dispute, amount := { amount_fx4 := 0 } },
        { id := 8, client_id := 2, kind := .Chargeback, amount := { amount_fx4 := 0 } } ])
      { id := 7, client_id := 2, kind := .Dispute, amount := { amount_fx4 := 0 } }).2 =
      .error .ClientLocked := by
  decide

/-- C9 amended: dispute/resolve/chargeback rows are resolved by
transaction id only, with no check that the referenced record belongs to
the same account: whenever the history holds a record `p` under the
row's id — recorded for a different client — and the row's client is
unlocked with a non-negative row amount, the row succeeds and applies
`p`'s amount to the row's client. -/
theorem c9_reference_by_id_only (l : Ledger) (t p : Transaction) (cl : Client)
    (hp : lookupA t.id l.transactions = some p)
    (hown : p.client_id ≠ t.client_id)
    (hcl : lookupA t.client_id l.clients = some cl)
    (hlk : cl.locked = false)
    (ha : ¬ t.amount < ZERO) :
    (t.kind = .Dispute → Ledger.mutate l t =
      ({ l with clients := insertA t.client_id ({ cl with available := cl.available - p.amount, held := cl.held + p.amount }) l.clients },
        .ok { cl with available := cl.available - p.amount, held := cl.held + p.amount })) ∧
    (t.kind = .Resolve → Ledger.mutate l t =
      ({ l with clients := insertA t.client_id ({ cl with available := cl.available + p.amount, held := cl.held - p.amount }) l.clients },
        .ok { cl with available := cl.available + p.amount, held := cl.held - p.amount })) ∧
    (t.kind = .Chargeback → Ledger.mutate l t =
      ({ l with clients := insertA t.client_id ({ cl with held := cl.held - p.amount, locked := true }) l.clients },
        .ok { cl with held := cl.held - p.amount, locked := true })) := by
  have hoc := Ledger.old_client_eq l t.client_id cl hcl
  rw [← hoc]
  refine ⟨fun hk => ?_, fun hk => ?_, fun hk => ?_⟩
  · exact Ledger.mutate_eq_ok l l t _ ha (by rw [hoc]; exact hlk)
      (Ledger.step_dispute l _ t p hk hp)
  · exact Ledger.mutate_eq_ok l l t _ ha (by rw [hoc]; exact hlk)
      (Ledger.step_resolve l _ t p hk hp)
  · exact Ledger.mutate_eq_ok l l t _ ha (by rw [hoc]; exact hlk)
      (Ledger.step_chargeback l _ t p hk hp)

/-- Witness for C9 amended: transaction 7 is recorded for client 1, yet
a dispute row naming client 2 and id 7 succeeds and moves transaction
7's amount (10) out of client 2's available balance. -/
theorem c9_reference_by_id_only_witness :
    (Ledger.mutate (Ledger.applyAll Ledger.new
        [ { id := 7, client_id := 1, kind := .Deposit, amount := { amount_fx4 := 100000 } },
          { id := 8, client_id := 2, kind := .Deposit, amount := { amount_fx4 := 50000 } } ])
        { id := 7, client_id := 2, kind := .Dispute, amount := { amount_fx4 := 0 } } =
      ({ Ledger.applyAll Ledger.new
          [ { id := 7, client_id := 1, kind := .Deposit, amount := { amount_fx4 := 100000 } },
            { id := 8, client_id := 2, kind := .Deposit, amount := { amount_fx4 := 50000 } } ] with
          clients := insertA 2 ({ ({ id := 2, available := { amount_fx4 := 50000 }, held := { amount_fx4 := 0 }, locked := false } : Client) with
              available := ({ id := 2, available := { amount_fx4 := 50000 }, held := { amount_fx4 := 0 }, locked := false } : Client).available - ({ id := 7, client_id := 1, kind := .Deposit, amount := { amount_fx4 := 100000 } } : Transaction).amount,
              held := ({ id := 2, available := { amount_fx4 := 50000 }, held := { amount_fx4 := 0 }, locked := false } : Client).held + ({ id := 7, client_id := 1, kind := .Deposit, amount := { amount_fx4 := 100000 } } : Transaction).amount })
            (Ledger.applyAll Ledger.new
              [ { id := 7, client_id := 1, kind := .Deposit, amount := { amount_fx4 := 100000 } },
                { id := 8, client_id := 2, kind := .Deposit, amount := { amount_fx4 := 50000 } } ]).clients },
        .ok { ({ id := 2, available := { amount_fx4 := 50000 }, held := { amount_fx4 := 0 }, locked := false } : Client) with
            available := ({ id := 2, available := { amount_fx4 := 50000 }, held := { amount_fx4 := 0 }, locked := false } : Client).available - ({ id := 7, client_id := 1, kind := .Deposit, amount := { amount_fx4 := 100000 } } : Transaction).amount,
            held := ({ id := 2, available := { amount_fx4 := 50000 }, held := { amount_fx4 := 0 }, locked := false } : Client).held + ({ id := 7, client_id := 1, kind := .Deposit, amount := { amount_fx4 := 100000 } } : Transaction).amount })) :=
  (c9_reference_by_id_only (Ledger.applyAll Ledger.new
      [ { id := 7, client_id := 1, kind := .Deposit, amount := { amount_fx4 := 100000 } },
        { id := 8, client_id := 2, kind := .Deposit, amount := { amount_fx4 := 50000 } } ])
    { id := 7, client_id := 2, kind := .Dispute, amount := { amount_fx4 := 0 } }
    { id := 7, client_id := 1, kind := .Deposit, amount := { amount_fx4 := 100000 } }
    { id := 2, available := { amount_fx4 := 50000 }, held := { amount_fx4 := 0 }, locked := false }
    (by decide) (by decide) (by decide) (by decide) (by decide)).1 rfl

/-- C10: disputes are not tracked per transaction, so after `n` repeated
dispute rows for the same recorded transaction id on an unlocked
account, the stored state shows `n` times the referenced amount moved
from `available` to `held`, and the `n+1`-st repetition succeeds again,
moving it once more. -/
theorem c10_repeated_disputes (l : Ledger) (T B : Nat) (p : Transaction) (cl : Client)
    (a0 : Amount) (n : Nat)
    (hp : lookupA T l.transactions = some p)
    (hcl : lookupA B l.clients = some cl)
    (hlk : cl.locked = false)
    (ha : ¬ a0 < ZERO) :
    lookupA B (Ledger.applyAll l
        (List.replicate n { id := T, client_id := B, kind := .Dispute, amount := a0 })).clients =
      some { cl with
        available := { amount_fx4 := cl.available.amount_fx4 - n * p.amount.amount_fx4 },
        held := { amount_fx4 := cl.held.amount_fx4 + n * p.amount.amount_fx4 } } ∧
    (Ledger.mutate (Ledger.applyAll l
        (List.replicate n { id := T, client_id := B, kind := .Dispute, amount := a0 }))
      { id := T, client_id := B, kind := .Dispute, amount := a0 }).2 =
      .ok { cl with
        available := { amount_fx4 := cl.available.amount_fx4 - (n + 1) * p.amount.amount_fx4 },
        held := { amount_fx4 := cl.held.amount_fx4 + (n + 1) * p.amount.amount_fx4 } } := by
  obtain ⟨ihc, iht⟩ := Ledger.repeated_dispute_invariant l T B p cl a0 hp hcl hlk ha n
  refine ⟨ihc, ?_⟩
  have hm := Ledger.mutate_dispute_ok
    (Ledger.applyAll l (List.replicate n { id := T, client_id := B, kind := .Dispute, amount := a0 }))
    { id := T, client_id := B, kind := .Dispute, amount := a0 } p _ rfl iht ihc hlk ha
  rw [hm]
  show Except.ok _ = Except.ok _
  congr 1
  simp only [Amount.sub_def, Amount.add_def, Client.mk.injEq, Amount.mk.injEq,
    true_and, and_true]
  constructor <;> push_cast <;> ring

/-- Witness for C10: deposit 10 as transaction 1 for client 1, then two
dispute rows for id 1; available is down by 20 and held is up by 20, and
a third dispute succeeds, moving a further 10. -/
theorem c10_repeated_disputes_witness :
    lookupA 1 (Ledger.applyAll (Ledger.applyAll Ledger.new
        [ { id := 1, client_id := 1, kind := .Deposit, amount := { amount_fx4 := 100000 } } ])
        (List.replicate 2 { id := 1, client_id := 1, kind := .Dispute, amount := { amount_fx4 := 0 } })).clients =
      some { id := 1, available := { amount_fx4 := -100000 },
             held := { amount_fx4 := 200000 }, locked := false } ∧
    (Ledger.mutate (Ledger.applyAll (Ledger.applyAll Ledger.new
        [ { id := 1, client_id := 1, kind := .Deposit, amount := { amount_fx4 := 100000 } } ])
        (List.replicate 2 { id := 1, client_id := 1, kind := .Dispute, amount := { amount_fx4 := 0 } }))
      { id := 1, client_id := 1, kind := .Dispute, amount := { amount_fx4 := 0 } }).2 =
      .ok { id := 1, available := { amount_fx4 := -200000 },
            held := { amount_fx4 := 300000 }, locked := false } :=
  c10_repeated_disputes (Ledger.applyAll Ledger.new
      [ { id := 1, client_id := 1, kind := .Deposit, amount := { amount_fx4 := 100000 } } ])
    1 1 { id := 1, client_id := 1, kind := .Deposit, amount := { amount_fx4 := 100000 } }
    { id := 1, available := { amount_fx4 := 100000 }, held := { amount_fx4 := 0 }, locked := false }
    { amount_fx4 := 0 } 2 (by decide) (by decide) rfl (by decide)

/-- C6: for every account state and non-negative amount, `withdrawal`
fails with the insufficient-funds error (`NegativeBalance` in the source)
exactly when the amount exceeds the available balance; on success,
`available` decreases by exactly the amount, `held` is unchanged, and
hence `total` decreases by exactly the amount. -/
theorem c6_withdrawal_guard (s : Client) (x : Amount) (hx : ¬ x < ZERO) :
    (Client.withdrawal s x = .error .NegativeBalance ↔ s.available < x) ∧
    (∀ c, Client.withdrawal s x = .ok c →
      c.available = s.available - x ∧ c.held = s.held ∧ c.total = s.total - x) := by
  constructor
  · constructor
    · intro h
      by_contra hc
      unfold Client.withdrawal at h
      rw [if_neg hc] at h
      exact Except.noConfusion h
    · intro h
      unfold Client.withdrawal
      rw [if_pos h]
  · intro c h
    unfold Client.withdrawal at h
    by_cases hlt : s.available < x
    · rw [if_pos hlt] at h
      exact Except.noConfusion h
    · rw [if_neg hlt] at h
      injection h with h
      subst h
      refine ⟨rfl, rfl, ?_⟩
      show Amount.mk ((s.available.amount_fx4 - x.amount_fx4) + s.held.amount_fx4) =
        Amount.mk ((s.available.amount_fx4 + s.held.amount_fx4) - x.amount_fx4)
      congr 1
      omega

/-- Witness for C6: withdrawing 5 from an account with 10 available
succeeds and decreases `available` and `total` by exactly 5. -/
theorem c6_withdrawal_guard_witness :
    (Client.withdrawal
        { id := 1, available := { amount_fx4 := 100000 },
          held := { amount_fx4 := 20000 }, locked := false } { amount_fx4 := 50000 } =
        .error .NegativeBalance ↔
      ({ id := 1, available := { amount_fx4 := 100000 },
         held := { amount_fx4 := 20000 }, locked := false } : Client).available <
        { amount_fx4 := 50000 }) ∧
    (∀ c, Client.withdrawal
        { id := 1, available := { amount_fx4 := 100000 },
          held := { amount_fx4 := 20000 }, locked := false } { amount_fx4 := 50000 } = .ok c →
      c.available =
        ({ id := 1, available := { amount_fx4 := 100000 },
           held := { amount_fx4 := 20000 }, locked := false } : Client).available -
          { amount_fx4 := 50000 } ∧
      c.held =
        ({ id := 1, available := { amount_fx4 := 100000 },
           held := { amount_fx4 := 20000 }, locked := false } : Client).held ∧
      c.total =
        ({ id := 1, available := { amount_fx4 := 100000 },
           held := { amount_fx4 := 20000 }, locked := false } : Client).total -
          { amount_fx4 := 50000 }) :=
  c6_withdrawal_guard
    { id := 1, available := { amount_fx4 := 100000 },
      held := { amount_fx4 := 20000 }, locked := false } { amount_fx4 := 50000 } (by decide)
